import Mathlib

/-!
# Verification of favclip/genbase (`parsing.go`)

Shallow embedding of the genbase parsing pipeline.  The Go `go/ast` node
shapes that `parsing.go` inspects are modelled as inductive types; the
external collaborators (the `go/parser` syntax parser and the
`go/types` checker) are modelled as function parameters producing
`Except`-valued results, so that `parsePackage`'s own control flow is
translated exactly.  The second source file of the repository
(`misc.go`, holding `ExprToBaseTypeName` and the annotation matcher)
is not available; its two relevant functions are modelled from the
spec and marked as such.
-/

namespace Genbase

mutual

/-- A Go type expression, restricted to the node shapes `parsing.go`
distinguishes: `*ast.Ident`, `*ast.SelectorExpr` (e.g. `time.Time`),
`*ast.StarExpr`, `*ast.ArrayType`, `*ast.StructType` (whose field list
carries, per `*ast.Field`, a name list and a type expression), and a
catch-all for every other expression shape. -/
inductive Expr where
  | ident (name : String)
  | selector (pkg : String) (name : String)
  | star (x : Expr)
  | array (elt : Expr)
  | structType (fields : Fields)
  | other

/-- The field list of a `*ast.StructType` (`Fields.List`): each entry is
one `*ast.Field`, carrying its name list and its type expression. -/
inductive Fields where
  | nil
  | cons (names : List String) (typ : Expr) (rest : Fields)

end

deriving instance DecidableEq for Expr
deriving instance DecidableEq for Fields
deriving instance Repr for Expr
deriving instance Repr for Fields

/-- A comment group (`*ast.CommentGroup`): a list of comment lines. -/
structure CommentGroup where
  comments : List String
deriving DecidableEq, Repr

/-- `*ast.TypeSpec`: one named type definition inside a `type` construct. -/
structure TypeSpec where
  name : String
  doc : Option CommentGroup
  typ : Expr
deriving DecidableEq, Repr

/-- `*ast.ImportSpec`: `name` is the optional explicit alias, `pathValue`
is `Path.Value`, the import path including its surrounding quotes. -/
structure ImportSpec where
  name : Option String
  pathValue : String
deriving DecidableEq, Repr

/-- The token of a `*ast.GenDecl` (`token.TYPE`, `token.IMPORT`, ...). -/
inductive Tok where
  | typeTok
  | importTok
  | constTok
  | varTok
deriving DecidableEq, Repr

/-- A spec inside a `*ast.GenDecl`: `parsing.go` only cares whether it is
a `*ast.TypeSpec`; import and value specs are carried for faithfulness. -/
inductive Spec where
  | typeSpec (ts : TypeSpec)
  | importSpec (is : ImportSpec)
  | valueSpec
deriving DecidableEq, Repr

/-- `*ast.GenDecl`: a declaration group with token, doc and specs. -/
structure GenDecl where
  tok : Tok
  doc : Option CommentGroup
  specs : List Spec
deriving DecidableEq, Repr

/-- A statement inside a function body, as far as `ast.Inspect`'s walk in
`TypeInfos` can encounter declarations: a `*ast.DeclStmt` wrapping a
`*ast.GenDecl` (a function-local declaration), or any other statement. -/
inductive Stmt where
  | declStmt (d : GenDecl)
  | otherStmt
deriving DecidableEq, Repr

/-- A top-level declaration of a file: a `*ast.GenDecl` or a
`*ast.FuncDecl` (whose body statements `ast.Inspect` walks through). -/
inductive Decl where
  | genDecl (d : GenDecl)
  | funcDecl (body : List Stmt)
deriving DecidableEq, Repr

/-- `FileInfo` (an `ast.File` synonym): package-clause name, top-level
declarations in textual order, and the `Imports` list. -/
structure FileInfo where
  name : String
  decls : List Decl
  imports : List ImportSpec
deriving DecidableEq, Repr

/-- The opaque result of the external `go/types` checker
(`*types.Package`); its contents are never inspected by `parsing.go`. -/
structure TypesPackage where
  id : Nat
deriving DecidableEq, Repr

/-- `PackageInfo`: directory, loaded files, and the optional
resolved-type table (nil when the semantic check was skipped). -/
structure PackageInfo where
  dir : String
  files : List FileInfo
  types : Option TypesPackage
deriving DecidableEq, Repr

/-- `TypeInfo`: one named type declaration, locating its file, its
enclosing `GenDecl`, its `TypeSpec`, and the annotation comment
attached by `CollectTaggedTypeInfos` (nil elsewhere). -/
structure TypeInfo where
  fileInfo : FileInfo
  genDecl : GenDecl
  typeSpec : TypeSpec
  annotatedComment : Option String
deriving DecidableEq, Repr

/-- `StructTypeInfo` (an `ast.StructType` synonym): the field list. -/
structure StructTypeInfo where
  fields : Fields
deriving DecidableEq, Repr

/-- `FieldInfo` (an `ast.Field` synonym): names and type expression. -/
structure FieldInfo where
  names : List String
  typ : Expr
deriving DecidableEq, Repr

/-- `Parser` configuration. -/
structure Parser where
  skipSemanticsCheck : Bool
deriving DecidableEq, Repr

/-- The `ErrNotStructType` sentinel (`errors.New("type is not ast.StructType")`). -/
def ErrNotStructType : String := "type is not ast.StructType"

/-- Go's `strings.HasSuffix`, embedded over the character sequence of
the string (Lean's own `String.endsWith` is not kernel-reducible, so
the library function is modelled directly). -/
def hasSuffix (s suffix : String) : Bool :=
  suffix.data.isSuffixOf s.data

/-! ## Loader (`parsePackage` and entry points)

The external `go/parser` is a parameter `parse` taking the file name and
the optional in-memory code (`codes[idx]` when `idx < len(codes)`, else
nil, meaning the parser reads the file from disk); the external
`go/types` checker is a parameter `check` taking the directory and the
collected files. -/

/-- The file-collecting loop of `parsePackage`: walks `fileNames` with
its running index `idx` (used to look up `codes`), silently skips names
without the `.go` suffix, aborts on the first parse error with the
`parsing package:` wrapper, and otherwise accumulates the parsed files
in order. -/
def collectFiles (parse : String → Option String → Except String FileInfo)
    (codes : List String) : List String → Nat → Except String (List FileInfo)
  | [], _ => Except.ok []
  | fileName :: rest, idx =>
    if hasSuffix fileName ".go" then
      match parse fileName codes[idx]? with
      | Except.error e => Except.error ("parsing package: " ++ fileName ++ ": " ++ e)
      | Except.ok f =>
        match collectFiles parse codes rest (idx + 1) with
        | Except.error e => Except.error e
        | Except.ok fs => Except.ok (f :: fs)
    else
      collectFiles parse codes rest (idx + 1)

/-- `(*Parser).parsePackage`: collect the `.go` files, fail with the
no-buildable-files error when none remain, then run the semantic check;
a check failure is swallowed (types table left nil) in lenient mode and
aborts the load otherwise. -/
def Parser.parsePackage (p : Parser)
    (check : String → List FileInfo → Except String TypesPackage)
    (parse : String → Option String → Except String FileInfo)
    (directory : String) (fileNames : List String) (codes : List String) :
    Except String PackageInfo :=
  match collectFiles parse codes fileNames 0 with
  | Except.error e => Except.error e
  | Except.ok files =>
    if files.isEmpty then
      Except.error (directory ++ ": no buildable Go files")
    else
      match check directory files with
      | Except.error e =>
        if p.skipSemanticsCheck then
          Except.ok { dir := directory, files := files, types := none }
        else
          Except.error e
      | Except.ok typesPkg =>
        Except.ok { dir := directory, files := files, types := some typesPkg }

/-- `(*Parser).ParseStringSource`: parse a single (name, text) pair. -/
def Parser.ParseStringSource (p : Parser)
    (check : String → List FileInfo → Except String TypesPackage)
    (parse : String → Option String → Except String FileInfo)
    (fileName : String) (code : String) : Except String PackageInfo :=
  p.parsePackage check parse "." [fileName] [code]

/-- `(*Parser).ParsePackageFiles`: parse an explicit file list. -/
def Parser.ParsePackageFiles (p : Parser)
    (check : String → List FileInfo → Except String TypesPackage)
    (parse : String → Option String → Except String FileInfo)
    (fileNames : List String) : Except String PackageInfo :=
  p.parsePackage check parse "." fileNames []

/-! ## Collector (`TypeInfos` and friends) -/

/-- The body of the `ast.Inspect` callback for a `*ast.GenDecl` with
`Tok == token.TYPE`: append one `TypeInfo` per `*ast.TypeSpec` among
its specs, in order (other spec shapes are skipped). -/
def genDeclTypeInfos (file : FileInfo) (decl : GenDecl) : List TypeInfo :=
  decl.specs.foldl
    (fun acc spec =>
      match spec with
      | Spec.typeSpec ts =>
        acc ++ [{ fileInfo := file, genDecl := decl, typeSpec := ts,
                  annotatedComment := none }]
      | _ => acc)
    []

/-- `ast.Inspect` reaching a statement of a function body: a
`*ast.DeclStmt` exposes its `*ast.GenDecl` to the callback (the walk is
pre-order, and for a TYPE decl that produced entries recursion below it
is pruned, where no further `GenDecl` exists anyway). -/
def inspectStmt (file : FileInfo) : Stmt → List TypeInfo
  | Stmt.declStmt d => if d.tok = Tok.typeTok then genDeclTypeInfos file d else []
  | Stmt.otherStmt => []

/-- `ast.Inspect` reaching a top-level declaration: a `*ast.GenDecl` is
handed to the callback; a `*ast.FuncDecl` is recursed into, so the walk
also reaches `GenDecl`s inside its body statements. -/
def inspectDecl (file : FileInfo) : Decl → List TypeInfo
  | Decl.genDecl d => if d.tok = Tok.typeTok then genDeclTypeInfos file d else []
  | Decl.funcDecl body => body.foldl (fun acc s => acc ++ inspectStmt file s) []

/-- `(*PackageInfo).TypeInfos`: for each file, `ast.Inspect` walks the
file's declarations in textual order and appends the discovered type
declarations. -/
def PackageInfo.TypeInfos (pkg : PackageInfo) : List TypeInfo :=
  pkg.files.foldl
    (fun acc file => acc ++ file.decls.foldl (fun a d => a ++ inspectDecl file d) [])
    []

/-- `(*TypeInfo).Name`. -/
def TypeInfo.Name (t : TypeInfo) : String :=
  t.typeSpec.name

/-- `(*TypeInfo).Doc`: the spec's own doc when non-nil, else the
enclosing `GenDecl`'s doc, else nil. -/
def TypeInfo.Doc (t : TypeInfo) : Option CommentGroup :=
  match t.typeSpec.doc with
  | some d => some d
  | none => t.genDecl.doc

/-- `(*TypeInfo).StructType`: succeeds exactly when the spec's type
expression is a `*ast.StructType`, otherwise fails with the
`ErrNotStructType` sentinel. -/
def TypeInfo.StructType (t : TypeInfo) : Except String StructTypeInfo :=
  match t.typeSpec.typ with
  | Expr.structType fs => Except.ok { fields := fs }
  | _ => Except.error ErrNotStructType

/-- `(*PackageInfo).CollectTypeInfos`: the `outer:` loop — for each
declaration, scan `typeNames` and append the declaration on the first
matching name, then continue with the next declaration. -/
def PackageInfo.CollectTypeInfos (pkg : PackageInfo) (typeNames : List String) :
    List TypeInfo :=
  pkg.TypeInfos.foldl
    (fun ret t => if typeNames.any (fun n => t.Name = n) then ret ++ [t] else ret)
    []

/-- Modelled from the spec: `findAnnotation` lives in the repository's
second source file, which is absent from `src/`.  Per the spec, at most
one match is produced, the first comment line recognized as carrying
the tag wins, and a declaration whose documentation comment group is
absent never matches any tag; the exact line-matching grammar is owned
by this collaborator and deliberately unspecified, so it is abstracted
as the `matcher` parameter. -/
def findAnnotation (matcher : String → String → Bool) :
    Option CommentGroup → String → Option String
  | none, _ => none
  | some g, tag => g.comments.find? (fun c => matcher c tag)

/-- `(*PackageInfo).CollectTaggedTypeInfos`: keep the declarations whose
governing doc carries the tag, attaching the matched comment. -/
def PackageInfo.CollectTaggedTypeInfos (matcher : String → String → Bool)
    (pkg : PackageInfo) (tag : String) : List TypeInfo :=
  pkg.TypeInfos.foldl
    (fun ret t =>
      match findAnnotation matcher t.Doc tag with
      | some c => ret ++ [{ t with annotatedComment := some c }]
      | none => ret)
    []

/-- `(*FileInfo).FindImportSpecByIdent`'s loop over `file.Imports`: per
import, try the explicit alias, then the `/ident"` path suffix, then
the exact quoted path, and fall through to the next import. -/
def findImportLoop (packageIdent : String) : List ImportSpec → Option ImportSpec
  | [] => none
  | imp :: rest =>
    if imp.name = some packageIdent then
      some imp
    else if hasSuffix imp.pathValue ("/" ++ packageIdent ++ "\"") then
      some imp
    else if imp.pathValue = "\"" ++ packageIdent ++ "\"" then
      some imp
    else
      findImportLoop packageIdent rest

/-- `(*FileInfo).FindImportSpecByIdent`. -/
def FileInfo.FindImportSpecByIdent (file : FileInfo) (packageIdent : String) :
    Option ImportSpec :=
  findImportLoop packageIdent file.imports

/-! ## Field introspection -/

/-- The loop body of `(*StructTypeInfo).FieldInfos`: each entry of the
field list becomes one `FieldInfo`, in declaration order. -/
def Fields.toFieldInfos : Fields → List FieldInfo
  | Fields.nil => []
  | Fields.cons ns t rest => { names := ns, typ := t } :: rest.toFieldInfos

/-- `(*StructTypeInfo).FieldInfos`: the fields in declaration order. -/
def StructTypeInfo.FieldInfos (st : StructTypeInfo) : List FieldInfo :=
  st.fields.toFieldInfos

/-- `(*FieldInfo).IsPtr`: the outermost node is a `*ast.StarExpr`. -/
def FieldInfo.IsPtr (f : FieldInfo) : Bool :=
  match f.typ with
  | Expr.star _ => true
  | _ => false

/-- `(*FieldInfo).IsArray`: the outermost node is an `*ast.ArrayType`. -/
def FieldInfo.IsArray (f : FieldInfo) : Bool :=
  match f.typ with
  | Expr.array _ => true
  | _ => false

/-- `(*FieldInfo).IsPtrArray`: a star whose operand is an array type. -/
def FieldInfo.IsPtrArray (f : FieldInfo) : Bool :=
  match f.typ with
  | Expr.star (Expr.array _) => true
  | _ => false

/-- `(*FieldInfo).IsArrayPtr`: an array whose element is a star. -/
def FieldInfo.IsArrayPtr (f : FieldInfo) : Bool :=
  match f.typ with
  | Expr.array (Expr.star _) => true
  | _ => false

/-- `(*FieldInfo).IsPtrArrayPtr`: a star over an array of stars. -/
def FieldInfo.IsPtrArrayPtr (f : FieldInfo) : Bool :=
  match f.typ with
  | Expr.star (Expr.array (Expr.star _)) => true
  | _ => false

/-- Modelled from the spec: `ExprToBaseTypeName` lives in the
repository's second source file, which is absent from `src/`.  Per the
spec (§4.4), it resolves a type expression to a base type name by
unwrapping one layer of pointer or array/collection wrapping at a time
until a terminal named type remains, and fails on an expression shape
the unwrapper does not recognize. -/
def ExprToBaseTypeName : Expr → Except String String
  | Expr.ident n => Except.ok n
  | Expr.selector p n => Except.ok (p ++ "." ++ n)
  | Expr.star x => ExprToBaseTypeName x
  | Expr.array e => ExprToBaseTypeName e
  | _ => Except.error "unknown type"

/-- `(*FieldInfo).IsInt`: base type name is `int` (false on failure). -/
def FieldInfo.IsInt (f : FieldInfo) : Bool :=
  match ExprToBaseTypeName f.typ with
  | Except.error _ => false
  | Except.ok n => n = "int"

/-- `(*FieldInfo).IsInt64`. -/
def FieldInfo.IsInt64 (f : FieldInfo) : Bool :=
  match ExprToBaseTypeName f.typ with
  | Except.error _ => false
  | Except.ok n => n = "int64"

/-- `(*FieldInfo).IsString`. -/
def FieldInfo.IsString (f : FieldInfo) : Bool :=
  match ExprToBaseTypeName f.typ with
  | Except.error _ => false
  | Except.ok n => n = "string"

/-! ## Spec-side (declarative) formulations -/

/-- The named type specs of a declaration group, in textual order. -/
def GenDecl.typeSpecs (d : GenDecl) : List TypeSpec :=
  d.specs.filterMap (fun s =>
    match s with
    | Spec.typeSpec ts => some ts
    | _ => none)

/-- The type-declaration constructs a statement contributes to the walk. -/
def stmtTypeConstructs : Stmt → List GenDecl
  | Stmt.declStmt d => if d.tok = Tok.typeTok then [d] else []
  | Stmt.otherStmt => []

/-- The type-declaration constructs a top-level declaration contributes
to the walk, in pre-order: the declaration itself when it is a `type`
group, and, for a function declaration, the groups of its body. -/
def declTypeConstructs : Decl → List GenDecl
  | Decl.genDecl d => if d.tok = Tok.typeTok then [d] else []
  | Decl.funcDecl body => body.flatMap stmtTypeConstructs

/-- The declarative description of the collector: file order, then
in-file pre-order of type constructs, then one entry per named type of
each construct, in order. -/
def allDeclarationsSpec (pkg : PackageInfo) : List TypeInfo :=
  pkg.files.flatMap (fun f =>
    (f.decls.flatMap declTypeConstructs).flatMap (fun d =>
      d.typeSpecs.map (fun ts =>
        { fileInfo := f, genDecl := d, typeSpec := ts, annotatedComment := none })))

/-- The declarative description of one import-lookup attempt: the
explicit alias, the `/ident"` path suffix, or the exact quoted path. -/
def importMatches (packageIdent : String) (imp : ImportSpec) : Bool :=
  (imp.name == some packageIdent)
    || hasSuffix imp.pathValue ("/" ++ packageIdent ++ "\"")
    || (imp.pathValue == "\"" ++ packageIdent ++ "\"")

/-! ## Helper lemmas about the accumulating folds -/

/-- The generic shape of the append-accumulating loops of `parsing.go`. -/
theorem foldl_append_flatMap {α β : Type} (g : α → List β) :
    ∀ (l : List α) (init : List β),
      l.foldl (fun acc x => acc ++ g x) init = init ++ l.flatMap g
  | [], init => by simp
  | x :: rest, init => by
    simp [List.foldl_cons, foldl_append_flatMap g rest, List.flatMap_cons,
      List.append_assoc]

/-- The spec loop of the `ast.Inspect` callback, characterized. -/
theorem genDeclTypeInfos_eq (file : FileInfo) (decl : GenDecl) :
    genDeclTypeInfos file decl = decl.typeSpecs.map (fun ts =>
      { fileInfo := file, genDecl := decl, typeSpec := ts,
        annotatedComment := none }) := by
  show decl.specs.foldl _ [] = (decl.specs.filterMap _).map _
  generalize decl.specs = specs
  suffices h : ∀ (specs : List Spec) (init : List TypeInfo),
      specs.foldl (fun acc spec =>
        match spec with
        | Spec.typeSpec ts =>
          acc ++ [{ fileInfo := file, genDecl := decl, typeSpec := ts,
                    annotatedComment := none }]
        | _ => acc) init
      = init ++ (specs.filterMap (fun s =>
          match s with
          | Spec.typeSpec ts => some ts
          | _ => none)).map (fun ts =>
            { fileInfo := file, genDecl := decl, typeSpec := ts,
              annotatedComment := none }) by
    simpa using h specs []
  intro specs
  induction specs with
  | nil => intro init; simp
  | cons s rest ih =>
    intro init
    cases s <;> simp [List.foldl_cons, ih, List.filterMap_cons]

/-- `inspectStmt` agrees with the declarative description. -/
theorem inspectStmt_eq (file : FileInfo) (s : Stmt) :
    inspectStmt file s = (stmtTypeConstructs s).flatMap (fun d =>
      d.typeSpecs.map (fun ts =>
        { fileInfo := file, genDecl := d, typeSpec := ts,
          annotatedComment := none })) := by
  cases s with
  | declStmt d =>
    by_cases h : d.tok = Tok.typeTok <;>
      simp [inspectStmt, stmtTypeConstructs, h, genDeclTypeInfos_eq]
  | otherStmt => simp [inspectStmt, stmtTypeConstructs]

/-- `inspectDecl` agrees with the declarative description. -/
theorem inspectDecl_eq (file : FileInfo) (d : Decl) :
    inspectDecl file d = (declTypeConstructs d).flatMap (fun g =>
      g.typeSpecs.map (fun ts =>
        { fileInfo := file, genDecl := g, typeSpec := ts,
          annotatedComment := none })) := by
  cases d with
  | genDecl g =>
    by_cases h : g.tok = Tok.typeTok <;>
      simp [inspectDecl, declTypeConstructs, h, genDeclTypeInfos_eq]
  | funcDecl body =>
    simp only [inspectDecl, declTypeConstructs]
    rw [foldl_append_flatMap (inspectStmt file) body [],
      funext (inspectStmt_eq file)]
    simp [List.flatMap_assoc]

/-- Per-file form of the collector loop, in declarative form. -/
theorem fileTypeInfos_eq (file : FileInfo) :
    file.decls.foldl (fun a d => a ++ inspectDecl file d) []
      = (file.decls.flatMap declTypeConstructs).flatMap (fun g =>
          g.typeSpecs.map (fun ts =>
            { fileInfo := file, genDecl := g, typeSpec := ts,
              annotatedComment := none })) := by
  rw [foldl_append_flatMap (inspectDecl file) file.decls [],
    funext (inspectDecl_eq file)]
  simp [List.flatMap_assoc]

/-- The if-append loop of `CollectTypeInfos`, characterized as a filter. -/
theorem collect_fold (typeNames : List String) :
    ∀ (l init : List TypeInfo),
      l.foldl (fun ret t =>
          if typeNames.any (fun n => t.Name = n) then ret ++ [t] else ret) init
        = init ++ l.filter (fun t => typeNames.any (fun n => t.Name = n))
  | [], init => by simp
  | t :: rest, init => by
    simp only [List.foldl_cons, List.filter_cons]
    by_cases h : (typeNames.any fun n => t.Name = n) = true
    · rw [if_pos h, if_pos h, collect_fold typeNames rest (init ++ [t]),
        List.append_assoc, List.singleton_append]
    · rw [if_neg h, if_neg h, collect_fold typeNames rest init]

/-- The match-append loop of `CollectTaggedTypeInfos`, characterized as
a `filterMap`. -/
theorem tagged_fold (matcher : String → String → Bool) (tag : String) :
    ∀ (l init : List TypeInfo),
      l.foldl (fun ret t =>
          match findAnnotation matcher t.Doc tag with
          | some c => ret ++ [{ t with annotatedComment := some c }]
          | none => ret) init
        = init ++ l.filterMap (fun t =>
            Option.map (fun c => { t with annotatedComment := some c })
              ( findAnnotation matcher t.Doc tag))
  | [], init => by simp
  | t :: rest, init => by
    cases h : findAnnotation matcher t.Doc tag <;>
      simp [List.foldl_cons, h, tagged_fold matcher tag rest,
        List.filterMap_cons, List.append_assoc]

/-! ## Concrete inputs used by the closed theorems -/

/-- A top-level `type A int` declaration. -/
def topGenDecl : GenDecl :=
  { tok := Tok.typeTok, doc := none,
    specs := [Spec.typeSpec { name := "A", doc := none, typ := Expr.ident "int" }] }

/-- A function-local `type B int` declaration. -/
def localGenDecl : GenDecl :=
  { tok := Tok.typeTok, doc := none,
    specs := [Spec.typeSpec { name := "B", doc := none, typ := Expr.ident "int" }] }

/-- A file holding `type A int` at top level and a function whose body
declares `type B int`. -/
def fileWithLocalType : FileInfo :=
  { name := "main",
    decls := [Decl.genDecl topGenDecl,
              Decl.funcDecl [Stmt.declStmt localGenDecl]],
    imports := [] }

/-- The loaded model of `fileWithLocalType`. -/
def pkgWithLocalType : PackageInfo :=
  { dir := ".", files := [fileWithLocalType], types := none }

/-! ## Claim theorems -/

/-- C1 (counterexample): on a valid file whose function body declares a
local type `B`, `TypeInfos` does not enumerate exactly the top-level
named types — the walk also emits the function-local declaration, so
the returned names are `["A", "B"]`, not `["A"]`. -/
theorem typeInfos_not_only_top_level :
    (pkgWithLocalType.TypeInfos).map TypeInfo.Name = ["A", "B"] ∧
    (pkgWithLocalType.TypeInfos).map TypeInfo.Name ≠ ["A"] := by
  decide

/-- C1 (amended): `PackageInfo.TypeInfos` enumerates one
`TypeInfo` per named type of every type-declaration construct the
pre-order walk of each file encounters — top-level constructs and
constructs inside function bodies alike, a multi-spec construct
yielding one entry per name — in file order, then in-file textual
order; as a pure function of the model it is identical across repeated
calls. -/
theorem typeInfos_enumeration (pkg : PackageInfo) :
    pkg.TypeInfos = allDeclarationsSpec pkg := by
  have h1 : pkg.TypeInfos
      = pkg.files.flatMap (fun file =>
          file.decls.foldl (fun a d => a ++ inspectDecl file d) []) := by
    simpa [PackageInfo.TypeInfos] using
      foldl_append_flatMap (fun file : FileInfo =>
        file.decls.foldl (fun a d => a ++ inspectDecl file d) []) pkg.files []
  rw [h1]
  simp only [fileTypeInfos_eq]
  rfl

/-- C2: a field declared as a plain pointer to a named type satisfies
`IsPtr` and none of the other shape predicates; a field declared as a
collection of that type satisfies only `IsArray`; a field declared as a
pointer to a collection satisfies `IsPtr` and `IsPtrArray` while
`IsArray` is false. -/
theorem shape_predicates_on_basic_shapes (names : List String) (n : String) :
    (FieldInfo.IsPtr ⟨names, Expr.star (Expr.ident n)⟩ = true ∧
     FieldInfo.IsArray ⟨names, Expr.star (Expr.ident n)⟩ = false ∧
     FieldInfo.IsPtrArray ⟨names, Expr.star (Expr.ident n)⟩ = false ∧
     FieldInfo.IsArrayPtr ⟨names, Expr.star (Expr.ident n)⟩ = false ∧
     FieldInfo.IsPtrArrayPtr ⟨names, Expr.star (Expr.ident n)⟩ = false) ∧
    (FieldInfo.IsArray ⟨names, Expr.array (Expr.ident n)⟩ = true ∧
     FieldInfo.IsPtr ⟨names, Expr.array (Expr.ident n)⟩ = false ∧
     FieldInfo.IsPtrArray ⟨names, Expr.array (Expr.ident n)⟩ = false ∧
     FieldInfo.IsArrayPtr ⟨names, Expr.array (Expr.ident n)⟩ = false ∧
     FieldInfo.IsPtrArrayPtr ⟨names, Expr.array (Expr.ident n)⟩ = false) ∧
    (FieldInfo.IsPtr ⟨names, Expr.star (Expr.array (Expr.ident n))⟩ = true ∧
     FieldInfo.IsPtrArray ⟨names, Expr.star (Expr.array (Expr.ident n))⟩ = true ∧
     FieldInfo.IsArray ⟨names, Expr.star (Expr.array (Expr.ident n))⟩ = false) :=
  ⟨⟨rfl, rfl, rfl, rfl, rfl⟩, ⟨rfl, rfl, rfl, rfl, rfl⟩, ⟨rfl, rfl, rfl⟩⟩

/-- C10: the shape predicates satisfy `IsPtrArrayPtr → IsPtrArray`,
`IsPtrArray → IsPtr` and `IsArrayPtr → IsArray`, and `IsPtr` and
`IsArray` are never both true, since they test the mutually exclusive
outermost node kind. -/
theorem shape_predicate_implications (f : FieldInfo) :
    (f.IsPtrArrayPtr = true → f.IsPtrArray = true) ∧
    (f.IsPtrArray = true → f.IsPtr = true) ∧
    (f.IsArrayPtr = true → f.IsArray = true) ∧
    ¬(f.IsPtr = true ∧ f.IsArray = true) := by
  obtain ⟨ns, typ⟩ := f
  cases typ
  case star x =>
    cases x <;>
      exact ⟨fun h => by first | rfl | exact Bool.noConfusion h, fun _ => rfl,
        fun h => Bool.noConfusion h, fun hc => Bool.noConfusion hc.2⟩
  case array e =>
    exact ⟨fun h => Bool.noConfusion h, fun h => Bool.noConfusion h,
      fun _ => rfl, fun hc => Bool.noConfusion hc.1⟩
  all_goals
    exact ⟨fun h => Bool.noConfusion h, fun h => Bool.noConfusion h,
      fun h => Bool.noConfusion h, fun hc => Bool.noConfusion hc.1⟩

/-- A `*[]*T` field, witnessing the implication chain of C10. -/
def papField : FieldInfo :=
  { names := ["f"], typ := Expr.star (Expr.array (Expr.star (Expr.ident "T"))) }

/-- C10 (witness): the implications evaluated on concrete fields. -/
theorem shape_predicate_implications_witness :
    papField.IsPtrArray = true ∧ papField.IsPtr = true ∧
    FieldInfo.IsArray ⟨["g"], Expr.array (Expr.star (Expr.ident "T"))⟩ = true :=
  ⟨(shape_predicate_implications papField).1 rfl,
   (shape_predicate_implications papField).2.1 rfl,
   (shape_predicate_implications ⟨["g"], Expr.array (Expr.star (Expr.ident "T"))⟩).2.2.1 rfl⟩

/-- C9: `StructType` returns the record shape exactly when the
declaration's definition is a struct type, and otherwise fails with the
distinguishing `ErrNotStructType` sentinel. -/
theorem structType_ok_or_err (t : TypeInfo) :
    (∀ fs, t.typeSpec.typ = Expr.structType fs →
      t.StructType = Except.ok { fields := fs }) ∧
    ((∀ fs, t.typeSpec.typ ≠ Expr.structType fs) →
      t.StructType = Except.error ErrNotStructType) := by
  constructor
  · intro fs h
    simp [TypeInfo.StructType, h]
  · intro h
    cases hx : t.typeSpec.typ
    case structType fs => exact absurd hx (h fs)
    all_goals simp [TypeInfo.StructType, hx]

/-! ## The `Point` scenario (C3, C9 witness) -/

/-- The field list of `struct { X int; Y *int; Tags []string }`. -/
def pointFields : Fields :=
  Fields.cons ["X"] (Expr.ident "int")
    (Fields.cons ["Y"] (Expr.star (Expr.ident "int"))
      (Fields.cons ["Tags"] (Expr.array (Expr.ident "string")) Fields.nil))

/-- The `Point` type spec. -/
def pointTypeSpec : TypeSpec :=
  { name := "Point", doc := none, typ := Expr.structType pointFields }

/-- The `type Point struct {...}` declaration group. -/
def pointGenDecl : GenDecl :=
  { tok := Tok.typeTok, doc := none, specs := [Spec.typeSpec pointTypeSpec] }

/-- The parse tree of the single in-memory `Point` file. -/
def pointFile : FileInfo :=
  { name := "main", decls := [Decl.genDecl pointGenDecl], imports := [] }

/-- The external parser's behaviour on the `Point` source. -/
def pointParse : String → Option String → Except String FileInfo :=
  fun _ _ => Except.ok pointFile

/-- The external checker's behaviour on the `Point` source (all names
resolve, so checking succeeds). -/
def pointCheck : String → List FileInfo → Except String TypesPackage :=
  fun _ _ => Except.ok { id := 0 }

/-- The in-memory source text of the scenario. -/
def pointSource : String :=
  "package main\n\ntype Point struct { X int; Y *int; Tags []string }\n"

/-- Loading the `Point` file through `ParseStringSource`. -/
def pointLoad : Except String PackageInfo :=
  Parser.ParseStringSource { skipSemanticsCheck := false } pointCheck pointParse
    "point.go" pointSource

/-- The model the load produces. -/
def pointPkg : PackageInfo :=
  { dir := ".", files := [pointFile], types := some { id := 0 } }

/-- The single type declaration of the `Point` model. -/
def pointTI : TypeInfo :=
  { fileInfo := pointFile, genDecl := pointGenDecl, typeSpec := pointTypeSpec,
    annotatedComment := none }

/-- The `X int` field. -/
def xField : FieldInfo := { names := ["X"], typ := Expr.ident "int" }

/-- The `Y *int` field. -/
def yField : FieldInfo := { names := ["Y"], typ := Expr.star (Expr.ident "int") }

/-- The `Tags []string` field. -/
def tagsField : FieldInfo :=
  { names := ["Tags"], typ := Expr.array (Expr.ident "string") }

/-- C3 (counterexample): on the loaded `Point` model the claim's
`IsInt()==false` for field `Y` fails — the base-type resolution unwraps
the pointer layer, so `IsInt` on the `Y *int` field returns true. -/
theorem point_scenario_isInt_of_ptr_int :
    pointLoad = Except.ok pointPkg ∧
    pointPkg.TypeInfos = [pointTI] ∧
    TypeInfo.StructType pointTI = Except.ok { fields := pointFields } ∧
    StructTypeInfo.FieldInfos { fields := pointFields } = [xField, yField, tagsField] ∧
    FieldInfo.IsInt yField = true := by
  refine ⟨rfl, rfl, rfl, rfl, rfl⟩

/-- C3 (amended): loading the single in-memory `Point` file yields
exactly one TypeDeclaration, named `Point`, whose record shape has 3
fields; field `X` has `IsInt()==true`; field `Y` has `IsPtr()==true`
and also `IsInt()==true`, since the base-type predicates compare the
fully-unwrapped base type name; field `Tags` has `IsArray()==true`. -/
theorem point_scenario_amended :
    pointLoad = Except.ok pointPkg ∧
    (pointPkg.TypeInfos).map TypeInfo.Name = ["Point"] ∧
    pointPkg.TypeInfos = [pointTI] ∧
    TypeInfo.StructType pointTI = Except.ok { fields := pointFields } ∧
    (StructTypeInfo.FieldInfos { fields := pointFields }).length = 3 ∧
    FieldInfo.IsInt xField = true ∧
    FieldInfo.IsPtr yField = true ∧
    FieldInfo.IsInt yField = true ∧
    FieldInfo.IsArray tagsField = true := by
  refine ⟨rfl, rfl, rfl, rfl, rfl, rfl, rfl, rfl, rfl⟩

/-- A non-record declaration (`type A int`), for the C9 witness. -/
def aliasTI : TypeInfo :=
  { fileInfo := pointFile, genDecl := topGenDecl,
    typeSpec := { name := "A", doc := none, typ := Expr.ident "int" },
    annotatedComment := none }

/-- C9 (witness): the conversion evaluated on a non-record declaration
and on the `Point` record declaration. -/
theorem structType_ok_or_err_witness :
    TypeInfo.StructType aliasTI = Except.error ErrNotStructType ∧
    TypeInfo.StructType pointTI = Except.ok { fields := pointFields } :=
  ⟨(structType_ok_or_err aliasTI).2 (fun _fs h => Expr.noConfusion h),
   (structType_ok_or_err pointTI).1 pointFields rfl⟩

/-! ## Loader behaviour (C4, C5) -/

/-- C4: when the semantic check fails, lenient mode
(`SkipSemanticsCheck = true`) still returns the model, with an absent
resolved-type table, and the syntax-level `TypeInfos` query is
unaffected by the types table; strict mode aborts with the checker's
error and no model. -/
theorem parsePackage_lenient_vs_strict (p : Parser)
    (check : String → List FileInfo → Except String TypesPackage)
    (parse : String → Option String → Except String FileInfo)
    (directory : String) (fileNames codes : List String)
    (files : List FileInfo) (e : String)
    (hc : collectFiles parse codes fileNames 0 = Except.ok files)
    (hne : files ≠ [])
    (herr : check directory files = Except.error e) :
    (p.skipSemanticsCheck = true →
      p.parsePackage check parse directory fileNames codes
        = Except.ok { dir := directory, files := files, types := none }) ∧
    (p.skipSemanticsCheck = false →
      p.parsePackage check parse directory fileNames codes = Except.error e) ∧
    (∀ ty : Option TypesPackage,
      PackageInfo.TypeInfos { dir := directory, files := files, types := ty }
        = PackageInfo.TypeInfos { dir := directory, files := files, types := none }) := by
  have hempty : files.isEmpty = false := List.isEmpty_eq_false.mpr hne
  refine ⟨?_, ?_, fun ty => rfl⟩ <;> intro hskip <;>
    simp [Parser.parsePackage, hc, hempty, herr, hskip]

/-- A trivial parsed file, for the loader witnesses. -/
def emptyFile : FileInfo := { name := "p", decls := [], imports := [] }

/-- An external parser that accepts anything. -/
def okParse : String → Option String → Except String FileInfo :=
  fun _ _ => Except.ok emptyFile

/-- An external checker that always fails to resolve. -/
def failCheck : String → List FileInfo → Except String TypesPackage :=
  fun _ _ => Except.error "resolution failed"

/-- C4 (witness): both modes evaluated on a concrete failing check. -/
theorem parsePackage_lenient_vs_strict_witness :
    Parser.parsePackage { skipSemanticsCheck := true } failCheck okParse
        "." ["a.go"] [] = Except.ok { dir := ".", files := [emptyFile], types := none } ∧
    Parser.parsePackage { skipSemanticsCheck := false } failCheck okParse
        "." ["a.go"] [] = Except.error "resolution failed" :=
  ⟨(parsePackage_lenient_vs_strict { skipSemanticsCheck := true } failCheck okParse
      "." ["a.go"] [] [emptyFile] "resolution failed" rfl (by simp) rfl).1 rfl,
   (parsePackage_lenient_vs_strict { skipSemanticsCheck := false } failCheck okParse
      "." ["a.go"] [] [emptyFile] "resolution failed" rfl (by simp) rfl).2.1 rfl⟩

/-- When every file name lacks the `.go` suffix, the collecting loop
produces the empty file list without consulting the parser. -/
theorem collectFiles_all_skipped
    (parse : String → Option String → Except String FileInfo)
    (codes : List String) :
    ∀ (fileNames : List String) (idx : Nat),
      (∀ fn ∈ fileNames, hasSuffix fn ".go" = false) →
      collectFiles parse codes fileNames idx = Except.ok []
  | [], _, _ => rfl
  | fn :: rest, idx, h => by
    have h1 : hasSuffix fn ".go" = false := h fn (List.mem_cons_self fn rest)
    simp [collectFiles, h1,
      collectFiles_all_skipped parse codes rest (idx + 1)
        (fun g hg => h g (List.mem_cons_of_mem fn hg))]

/-- C5: an input whose file names all lack the `.go` extension loads to
the no-source-files error — the skipped files are not themselves an
error: a name without the extension is passed over and the loop
continues with the next name, index advanced. -/
theorem parsePackage_no_source_files (p : Parser)
    (check : String → List FileInfo → Except String TypesPackage)
    (parse : String → Option String → Except String FileInfo)
    (directory : String) (fileNames codes : List String)
    (h : ∀ fn ∈ fileNames, hasSuffix fn ".go" = false) :
    p.parsePackage check parse directory fileNames codes
      = Except.error (directory ++ ": no buildable Go files") ∧
    (∀ (fn : String) (rest : List String) (idx : Nat),
      hasSuffix fn ".go" = false →
      collectFiles parse codes (fn :: rest) idx
        = collectFiles parse codes rest (idx + 1)) := by
  constructor
  · simp [Parser.parsePackage,
      collectFiles_all_skipped parse codes fileNames 0 h]
  · intro fn rest idx hfn
    simp [collectFiles, hfn]

/-- C5 (witness): a directory holding only non-Go files. -/
theorem parsePackage_no_source_files_witness :
    Parser.parsePackage { skipSemanticsCheck := false } failCheck okParse
        "dir" ["README.md", "gen.txt"] []
      = Except.error ("dir" ++ ": no buildable Go files") :=
  (parsePackage_no_source_files { skipSemanticsCheck := false } failCheck okParse
    "dir" ["README.md", "gen.txt"] [] (by decide)).1

/-! ## Collector selection (C6, C7) and import lookup (C8) -/

/-- C6: `CollectTypeInfos` keeps exactly the declarations of
`TypeInfos` whose name matches an entry of the list, as an
order-preserving subsequence with each declaration contributed at most
once, and yields the empty list — not an error — when no name
matches. -/
theorem collectTypeInfos_filters_by_name (pkg : PackageInfo)
    (typeNames : List String) :
    pkg.CollectTypeInfos typeNames
        = pkg.TypeInfos.filter (fun t => typeNames.any (fun n => t.Name = n)) ∧
    (pkg.CollectTypeInfos typeNames).Sublist pkg.TypeInfos ∧
    ((∀ t ∈ pkg.TypeInfos, ∀ n ∈ typeNames, ¬t.Name = n) →
      pkg.CollectTypeInfos typeNames = []) := by
  have h1 : pkg.CollectTypeInfos typeNames
      = pkg.TypeInfos.filter (fun t => typeNames.any (fun n => t.Name = n)) := by
    simpa [PackageInfo.CollectTypeInfos] using
      collect_fold typeNames pkg.TypeInfos []
  refine ⟨h1, h1 ▸ List.filter_sublist _, fun h => ?_⟩
  rw [h1]
  refine List.filter_eq_nil_iff.mpr ?_
  intro t ht
  simp only [List.any_eq_true, decide_eq_true_eq]
  rintro ⟨n, hn, he⟩
  exact h t ht n hn he

/-- C6 (witness): a name list matching no declaration yields `[]`. -/
theorem collectTypeInfos_filters_by_name_witness :
    pkgWithLocalType.CollectTypeInfos ["Z"] = [] :=
  (collectTypeInfos_filters_by_name pkgWithLocalType ["Z"]).2.2 (by decide)

/-- C7: `Doc` returns the type's own doc comment when present, else the
enclosing declaration group's, else nothing; consequently every
declaration selected by `CollectTaggedTypeInfos` has a present doc. -/
theorem doc_priority_and_tagged_matching (matcher : String → String → Bool)
    (pkg : PackageInfo) (tag : String) (t : TypeInfo) :
    (t ∈ PackageInfo.CollectTaggedTypeInfos matcher pkg tag → t.Doc ≠ none) ∧
    (∀ d, t.typeSpec.doc = some d → t.Doc = some d) ∧
    (t.typeSpec.doc = none → t.Doc = t.genDecl.doc) := by
  refine ⟨?_, ?_, ?_⟩
  · intro hmem hnone
    have h1 : PackageInfo.CollectTaggedTypeInfos matcher pkg tag
        = pkg.TypeInfos.filterMap (fun u =>
            Option.map (fun c => { u with annotatedComment := some c })
              ( findAnnotation matcher u.Doc tag)) := by
      simpa [PackageInfo.CollectTaggedTypeInfos] using
        tagged_fold matcher tag pkg.TypeInfos []
    rw [h1] at hmem
    rcases List.mem_filterMap.mp hmem with ⟨u, _, heq⟩
    rcases Option.map_eq_some'.mp heq with ⟨c, hc, ht⟩
    have hdoc : t.Doc = u.Doc := by rw [← ht]; rfl
    rw [hdoc] at hnone
    rw [hnone] at hc
    simp [ findAnnotation] at hc
  · intro d hd
    simp [TypeInfo.Doc, hd]
  · intro hd
    simp [TypeInfo.Doc, hd]

/-- A `// +mytag`-documented `type T int` declaration group. -/
def taggedTypeSpec : TypeSpec := { name := "T", doc := none, typ := Expr.ident "int" }

/-- The declaration group carrying the tag comment in its group doc. -/
def taggedGenDecl : GenDecl :=
  { tok := Tok.typeTok, doc := some { comments := ["// +mytag"] },
    specs := [Spec.typeSpec taggedTypeSpec] }

/-- The file of the tagged declaration. -/
def taggedFile : FileInfo :=
  { name := "main", decls := [Decl.genDecl taggedGenDecl], imports := [] }

/-- The model of the tagged declaration's file. -/
def taggedPkg : PackageInfo :=
  { dir := ".", files := [taggedFile], types := none }

/-- The declaration as selected by the tagged collection. -/
def taggedTI : TypeInfo :=
  { fileInfo := taggedFile, genDecl := taggedGenDecl,
    typeSpec := taggedTypeSpec, annotatedComment := some "// +mytag" }

/-- C7 (witness): a tagged declaration selected on a concrete model has
a present doc. -/
theorem doc_priority_and_tagged_matching_witness :
    TypeInfo.Doc taggedTI ≠ none :=
  (doc_priority_and_tagged_matching (fun c tg => c == "// " ++ tg) taggedPkg
      "+mytag" taggedTI).1 (by decide)

/-- C8: the import lookup returns the first import clause in file order
that matches any of the ordered attempts — explicit alias, path-suffix
segment, exact quoted path — and a not-found `none`, never an error,
when no clause matches. -/
theorem findImportSpec_first_match (file : FileInfo) (packageIdent : String) :
    file.FindImportSpecByIdent packageIdent
        = file.imports.find? (importMatches packageIdent) ∧
    ((∀ imp ∈ file.imports, importMatches packageIdent imp = false) →
      file.FindImportSpecByIdent packageIdent = none) := by
  have key : ∀ (l : List ImportSpec),
      findImportLoop packageIdent l = l.find? (importMatches packageIdent) := by
    intro l
    induction l with
    | nil => rfl
    | cons imp rest ih =>
      by_cases h1 : imp.name = some packageIdent
      · rw [List.find?_cons_of_pos _ (by simp [importMatches, h1])]
        simp [findImportLoop, h1]
      · by_cases h2 : hasSuffix imp.pathValue ("/" ++ packageIdent ++ "\"") = true
        · rw [List.find?_cons_of_pos _ (by simp [importMatches, h2])]
          simp [findImportLoop, h1, h2]
        · by_cases h3 : imp.pathValue = "\"" ++ packageIdent ++ "\""
          · rw [List.find?_cons_of_pos _ (by simp [importMatches, h3])]
            simp [findImportLoop, h1, h2, h3]
          · rw [List.find?_cons_of_neg _ (by simp [importMatches, h1, h2, h3])]
            simp [findImportLoop, h1, h2, h3, ih]
  refine ⟨key file.imports, fun h => ?_⟩
  show findImportLoop packageIdent file.imports = none
  rw [key file.imports, List.find?_eq_none]
  intro imp hmem
  simp [h imp hmem]

/-- A file importing `"github.com/favclip/genbase"` with no alias. -/
def importFile : FileInfo :=
  { name := "main", decls := [],
    imports := [{ name := none, pathValue := "\"github.com/favclip/genbase\"" }] }

/-- C8 (witness): probing an identifier bound to no import clause of a
concrete file returns `none`. -/
theorem findImportSpec_first_match_witness :
    importFile.FindImportSpecByIdent "foo" = none :=
  (findImportSpec_first_match importFile "foo").2 (by decide)

end Genbase
